import Mathlib

set_option autoImplicit false

/-!
Shallow embedding of the `snail-mcp` Excel extraction pipeline
(`src/mcp/excel/read.py` and the tool facade in `src/mcp/server.py`).

Python strings become `String`, Python `None`-able attributes become
`Option`, Python truthiness tests are modelled explicitly at each use
site, and the workbook loader (openpyxl) is modelled as data: a
`Workbook` is a list of named `Sheet`s, and a `Sheet` provides a total
cell accessor (openpyxl materialises blank cells on demand) together
with its natural bounds.  The final JSON serialisation (`json.dumps`)
is outside the embedding; the structured encoding is modelled as the
ordered key/value document that is passed to it, and the text encoding
as the exact output string.
-/

namespace SnailMcp

/-! ### Python-style primitives -/

/-- Python `sep.join(parts)`. -/
def pyJoin (sep : String) : List String → String
  | [] => ""
  | [x] => x
  | x :: y :: xs => x ++ sep ++ pyJoin sep (y :: xs)

/-- Python `x or 1` for an optional natural number attribute:
`None` and `0` are falsy and give the default `1`. -/
def pyOr1 : Option Nat → Nat
  | Option.none => 1
  | some 0 => 1
  | some (n + 1) => n + 1

/-- Python `s.lower()`, character by character (ASCII case folding,
as in the option strings this program handles). -/
def pyLower (s : String) : String := String.mk (s.data.map Char.toLower)

/-- Character membership `c in s` (Python substring test for a
single-character needle). -/
def pyContains (s : String) (c : Char) : Bool := s.data.contains c

/-- Structural single-character-needle test for `s.startswith(pat)`. -/
def isPrefixList : List Char → List Char → Bool
  | [], _ => true
  | _ :: _, [] => false
  | p :: ps, c :: chars => p = c && isPrefixList ps chars

/-- Python `s.startswith(pat)`. -/
def pyStartsWith (s pat : String) : Bool := isPrefixList pat.data s.data

/-- Drop leading whitespace characters. -/
def dropWs : List Char → List Char
  | [] => []
  | c :: rest => if c.isWhitespace then dropWs rest else c :: rest

/-- Python `s.strip()`: drop whitespace at both ends. -/
def pyStrip (s : String) : String :=
  String.mk ((dropWs (dropWs s.data).reverse).reverse)

/-- Python `s.split(",")` on character lists: a one-piece split of the
empty input, each comma starting a new piece. -/
def splitCommaList : List Char → List (List Char)
  | [] => [[]]
  | c :: rest =>
    match splitCommaList rest with
    | [] => [[c]]
    | g :: gs => if c = ',' then [] :: g :: gs else (c :: g) :: gs

/-- Python `s.split(",")`. -/
def pySplitComma (s : String) : List String :=
  (splitCommaList s.data).map String.mk

/-! ### Data model of the external workbook accessor -/

/-- Raw underlying cell value (`cell.value`): `None`, a string, or a
non-string scalar (modelled by integers and booleans). -/
inductive RawVal
  | none
  | str (s : String)
  | int (n : Int)
  | bool (b : Bool)
  deriving DecidableEq, Repr

/-- A colour object; its `rgb` attribute may be `None`. -/
structure Color where
  rgb : Option String
  deriving DecidableEq, Repr

/-- Font attributes of a cell. -/
structure Font where
  bold : Bool
  name : Option String
  size : Option Nat
  color : Option Color
  deriving DecidableEq, Repr

/-- Fill attributes of a cell. -/
structure Fill where
  fgColor : Option Color
  deriving DecidableEq, Repr

/-- One cell as yielded by the workbook accessor. -/
structure Cell where
  value : RawVal
  font : Option Font
  fill : Option Fill
  deriving DecidableEq, Repr

/-- A worksheet: total coordinate accessor `ws.cell(row, col)` plus the
natural bounds `min_row`/`max_row`/`min_column`/`max_column`, each of
which the sheet may report as `None` (or `0`, both falsy in Python). -/
structure Sheet where
  cell : Int → Int → Cell
  min_row : Option Nat
  max_row : Option Nat
  min_column : Option Nat
  max_column : Option Nat

/-- A workbook: ordered association of sheet names to sheets. -/
structure Workbook where
  sheets : List (String × Sheet)

/-- First-match association lookup (Python `dict`/`wb[name]` access). -/
def alookup {α : Type} (k : String) : List (String × α) → Option α
  | [] => Option.none
  | (k', v) :: rest => if k' = k then some v else alookup k rest

/-- Python `dict` assignment `d[k] = v`: an existing key keeps its
position and gets the new value, a fresh key is appended at the end. -/
def dictInsert {α : Type} (k : String) (v : α) : List (String × α) → List (String × α)
  | [] => [(k, v)]
  | (k', v') :: rest => if k' = k then (k, v) :: rest else (k', v') :: dictInsert k v rest

/-- `wb.sheetnames`. -/
def Workbook.sheetnames (wb : Workbook) : List String := wb.sheets.map Prod.fst

/-- `wb[name]`, as an optional lookup. -/
def Workbook.get (wb : Workbook) (name : String) : Option Sheet := alookup name wb.sheets

/-! ### read.py: defaults and helpers -/

def DEFAULT_OUT : String := "vbf"

def DEFAULT_FMT : String := "j"

/-- Selected output fields, one flag per recognised letter. -/
structure Fields where
  v : Bool
  b : Bool
  n : Bool
  z : Bool
  c : Bool
  g : Bool
  f : Bool
  deriving DecidableEq, Repr

/-- `_parse_out`: lowercase `out or DEFAULT_OUT` and test membership of
each recognised letter. -/
def _parse_out (out : String) : Fields :=
  let o := pyLower (if out = "" then DEFAULT_OUT else out)
  { v := pyContains o 'v'
    b := pyContains o 'b'
    n := pyContains o 'n'
    z := pyContains o 'z'
    c := pyContains o 'c'
    g := pyContains o 'g'
    f := pyContains o 'f' }

/-- Python `s.replace(pat, rep)` for a single-character pattern:
replace every occurrence of `pat` by `rep`, left to right. -/
def replace1 (pat : Char) (rep : List Char) : List Char → List Char
  | [] => []
  | ch :: rest => (if ch = pat then rep else [ch]) ++ replace1 pat rep rest

/-- The chained replacements of `_esc`, on character lists: backslash
first, then tab, carriage return and newline. -/
def escList (s : List Char) : List Char :=
  replace1 '\n' ['\\', 'n'] (replace1 '\r' ['\\', 'r']
    (replace1 '\t' ['\\', 't'] (replace1 '\\' ['\\', '\\'] s)))

/-- `_esc`: the empty string is returned unchanged, any other string
goes through the four chained replacements. -/
def _esc (s : String) : String :=
  if s = "" then s else String.mk (escList s.data)

/-- `_is_blank`: `None`, or a string whose characters are all
whitespace (Python `not val.strip()`). -/
def _is_blank : RawVal → Bool
  | RawVal.none => true
  | RawVal.str s => s.data.all Char.isWhitespace
  | _ => false

/-- `_sheet_range`: each bound is the explicit argument when positive,
else the sheet's natural bound with Python's `or 1` default. -/
def _sheet_range (ws : Sheet) (row_start row_end col_start col_end : Int) :
    Int × Int × Int × Int :=
  let r1 : Int := if row_start > 0 then row_start else (pyOr1 ws.min_row : Nat)
  let r2 : Int := if row_end > 0 then row_end else (pyOr1 ws.max_row : Nat)
  let c1 : Int := if col_start > 0 then col_start else (pyOr1 ws.min_column : Nat)
  let c2 : Int := if col_end > 0 then col_end else (pyOr1 ws.max_column : Nat)
  (r1, r2, c1, c2)

/-- Python `range(a, b + 1)` over integers. -/
def intRange (a b : Int) : List Int :=
  (List.range (b + 1 - a).toNat).map (fun i : Nat => a + (i : Int))

/-- `_cell_value_str`: `None` becomes the empty string, strings pass
through, other scalars are stringified as Python would. -/
def _cell_value_str (c : Cell) : String :=
  match c.value with
  | RawVal.none => ""
  | RawVal.str s => s
  | RawVal.int n => toString n
  | RawVal.bool b => if b then "True" else "False"

/-- `_font_color`: the font colour's `rgb` if font and colour exist and
`rgb` is truthy, else the empty string. -/
def _font_color (c : Cell) : String :=
  match c.font with
  | Option.none => ""
  | some f =>
    match f.color with
    | Option.none => ""
    | some col => col.rgb.getD ""

/-- `_fill_color`: same rule against the fill's foreground colour. -/
def _fill_color (c : Cell) : String :=
  match c.fill with
  | Option.none => ""
  | some fl =>
    match fl.fgColor with
    | Option.none => ""
    | some col => col.rgb.getD ""

/-- The `_CellData` named tuple. -/
structure _CellData where
  row : Int
  col : Int
  value : String
  is_formula : Bool
  bold : Bool
  font_name : Option String
  font_size : Option Nat
  font_color : String
  fill_color : String
  deriving DecidableEq, Repr

/-- Build the `_CellData` record for one coordinate. -/
def mkCellData (row col : Int) (cell : Cell) : _CellData :=
  { row := row
    col := col
    value := _cell_value_str cell
    is_formula := (match cell.value with
      | RawVal.str s => pyStartsWith s "="
      | _ => false)
    bold := (match cell.font with
      | some f => f.bold
      | Option.none => false)
    font_name := (match cell.font with
      | some f => f.name
      | Option.none => some "")
    font_size := (match cell.font with
      | some f => f.size
      | Option.none => Option.none)
    font_color := _font_color cell
    fill_color := _fill_color cell }

/-- `_collect_cells`: row outer loop, column inner loop; in sparse mode
blank raw values are skipped. -/
def _collect_cells (ws : Sheet) (r1 r2 c1 c2 : Int) (sparse : Bool) : List _CellData :=
  (intRange r1 r2).flatMap fun row =>
    (intRange c1 c2).flatMap fun col =>
      let cell := ws.cell row col
      if sparse && _is_blank cell.value then []
      else [mkCellData row col cell]

/-- JSON scalar values appearing in the structured encoding. -/
inductive JVal
  | s (v : String)
  | i (n : Int)
  | b (v : Bool)
  | null
  deriving DecidableEq, Repr

/-- `_cell_to_json`: the ordered key/value object built for one cell. -/
def _cell_to_json (cell : _CellData) (fields : Fields) : List (String × JVal) :=
  [("row", JVal.i cell.row), ("col", JVal.i cell.col)]
  ++ (if fields.v then [("value", JVal.s cell.value)] else [])
  ++ (if fields.f && cell.is_formula then [("formula", JVal.b true)] else [])
  ++ (if fields.b then [("bold", JVal.b cell.bold)] else [])
  ++ (if fields.n then [("font_name", JVal.s (cell.font_name.getD ""))] else [])
  ++ (if fields.z then [("font_size", (match cell.font_size with
        | some k => JVal.i k
        | Option.none => JVal.null))] else [])
  ++ (if fields.c then [("font_color", JVal.s cell.font_color)] else [])
  ++ (if fields.g then [("fill_color", JVal.s cell.fill_color)] else [])

/-- `_cell_to_text_parts`: literal `"c"`, row, col, then the selected
fields in the fixed order; `str(x) if x else ""` for the font size. -/
def _cell_to_text_parts (cell : _CellData) (fields : Fields) : List String :=
  ["c", toString cell.row, toString cell.col]
  ++ (if fields.v then [_esc cell.value] else [])
  ++ (if fields.f then [if cell.is_formula then "1" else "0"] else [])
  ++ (if fields.b then [if cell.bold then "1" else "0"] else [])
  ++ (if fields.n then [_esc (cell.font_name.getD "")] else [])
  ++ (if fields.z then [(match cell.font_size with
        | some (k + 1) => toString (k + 1)
        | _ => "")] else [])
  ++ (if fields.c then [_esc cell.font_color] else [])
  ++ (if fields.g then [_esc cell.fill_color] else [])

/-! ### read.py: the pipeline -/

/-- Per-sheet outcome inside `read_excel`'s first loop: `none` when the
name is missing from the workbook or the resolved range is inverted,
else the collected cells. -/
def sheetCells (wb : Workbook) (rs re cs ce : Int) (sparse : Bool) (name : String) :
    Option (List _CellData) :=
  match wb.get name with
  | Option.none => Option.none
  | some ws =>
    match _sheet_range ws rs re cs ce with
    | (r1, r2, c1, c2) =>
      if r2 < r1 ∨ c2 < c1 then Option.none
      else some (_collect_cells ws r1 r2 c1 c2 sparse)

/-- The `cells_by_sheet` dictionary built by `read_excel`'s first loop. -/
def cells_by_sheet (wb : Workbook) (names : List String) (rs re cs ce : Int)
    (sparse : Bool) : List (String × List _CellData) :=
  names.foldl (fun acc name =>
    match sheetCells wb rs re cs ce sparse name with
    | Option.none => acc
    | some cs => dictInsert name cs acc) []

/-- The structured output document: sheet name mapped to its projected
cell objects, insertion-ordered as a Python dict. -/
def json_doc (wb : Workbook) (names : List String) (fields : Fields)
    (rs re cs ce : Int) (sparse : Bool) :
    List (String × List (List (String × JVal))) :=
  let cbs := cells_by_sheet wb names rs re cs ce sparse
  names.foldl (fun res name =>
    match alookup name cbs with
    | some cs => dictInsert name (cs.map (fun c => _cell_to_json c fields)) res
    | Option.none => res) []

/-- The delimited-text output lines: per requested name with data, one
header line then one tab-joined line per cell. -/
def text_lines (wb : Workbook) (names : List String) (fields : Fields)
    (rs re cs ce : Int) (sparse : Bool) : List String :=
  let cbs := cells_by_sheet wb names rs re cs ce sparse
  names.flatMap fun name =>
    match alookup name cbs with
    | Option.none => []
    | some cs =>
      (">" ++ _esc name) :: cs.map (fun c => pyJoin "\t" (_cell_to_text_parts c fields))

/-- `(fmt or DEFAULT_FMT).lower()[:1]`. -/
def fmt_char_of (fmt : String) : String :=
  String.mk ((pyLower (if fmt = "" then DEFAULT_FMT else fmt)).data.take 1)

/-- The requested sheet list: split on commas, strip entries, drop the
empty ones; an empty result means all sheets in workbook order. -/
def _sheet_names_of (wb : Workbook) (sheets : String) : List String :=
  let names := ((pySplitComma sheets).map pyStrip).filter (fun s => s ≠ "")
  if names = [] then wb.sheetnames else names

/-- The result of `read_excel`: either the structured document handed
to `json.dumps`, or the final delimited-text string. -/
inductive Output
  | json (doc : List (String × List (List (String × JVal))))
  | text (s : String)
  deriving DecidableEq, Repr

/-- True exactly on structured results. -/
def Output.isJson : Output → Bool
  | Output.json _ => true
  | Output.text _ => false

/-- `read_excel`: parse options, resolve the sheet list, build the
per-sheet cells, then encode per the format character. -/
def read_excel (wb : Workbook) (out fmt sheets : String)
    (row_start row_end col_start col_end : Int) (sparse : Bool) : Output :=
  let fields := _parse_out out
  let names := _sheet_names_of wb sheets
  if fmt_char_of fmt = "j" then
    Output.json (json_doc wb names fields row_start row_end col_start col_end sparse)
  else
    Output.text (pyJoin "\n" (text_lines wb names fields row_start row_end col_start col_end sparse))

/-! ### server.py: the tool facade -/

/-- The facade from `server.py`: existence of the `Path`-normalised
input decides between the error string (built from the original
argument) and the pipeline's verbatim output.  The filesystem, the
pipeline and `str(Path(.))` are the external collaborators, passed as
parameters. -/
def server_read_excel (pathExists : String → Bool) (pipeline : String → String)
    (pathStr : String → String) (filepath : String) : String :=
  if pathExists (pathStr filepath) then pipeline (pathStr filepath)
  else "error: file not found: " ++ filepath


/-! ### Derived characterisations used by the verification -/

/-- How one character is rendered by the chained replacements of
`_esc`: the four special characters become two-character escapes,
everything else passes through. -/
def escChar (c : Char) : List Char :=
  if c = '\\' then ['\\', '\\']
  else if c = '\t' then ['\\', 't']
  else if c = '\r' then ['\\', 'r']
  else if c = '\n' then ['\\', 'n']
  else [c]

/-- Character-wise escaping of a whole character list. -/
def escMap (s : List Char) : List Char := s.flatMap escChar

/-- Decoder for the character following a backslash. -/
def unescChar (d : Char) : Char :=
  if d = 't' then '\t' else if d = 'r' then '\r' else if d = 'n' then '\n' else d

/-- Inverse of the escaping, on character lists. -/
def unescList : List Char → List Char
  | [] => []
  | [c] => [c]
  | c :: d :: rest =>
    if c = '\\' then unescChar d :: unescList rest
    else c :: unescList (d :: rest)

/-- The paired unescape on strings. -/
def _unesc (s : String) : String := String.mk (unescList s.data)

/-- The coordinates of a rectangular range enumerated row-major:
row outer, column inner. -/
def rowMajorCoords (r1 r2 c1 c2 : Int) : List (Int × Int) :=
  (intRange r1 r2).flatMap fun r => (intRange c1 c2).map fun c => (r, c)

/-- The canonical non-row/col field-key order shared by both encoders,
restricted to the selected fields. -/
def textKeys (fields : Fields) : List String :=
  (if fields.v then ["value"] else [])
  ++ (if fields.f then ["formula"] else [])
  ++ (if fields.b then ["bold"] else [])
  ++ (if fields.n then ["font_name"] else [])
  ++ (if fields.z then ["font_size"] else [])
  ++ (if fields.c then ["font_color"] else [])
  ++ (if fields.g then ["fill_color"] else [])

/-- The text token rendered for one field key of a cell. -/
def _render_field (cell : _CellData) (k : String) : String :=
  if k = "value" then _esc cell.value
  else if k = "formula" then (if cell.is_formula then "1" else "0")
  else if k = "bold" then (if cell.bold then "1" else "0")
  else if k = "font_name" then _esc (cell.font_name.getD "")
  else if k = "font_size" then (match cell.font_size with
    | some (j + 1) => toString (j + 1)
    | _ => "")
  else if k = "font_color" then _esc cell.font_color
  else if k = "fill_color" then _esc cell.fill_color
  else ""

/-! ### Helper lemmas: escaping -/

theorem replace1_append (pat : Char) (rep a b : List Char) :
    replace1 pat rep (a ++ b) = replace1 pat rep a ++ replace1 pat rep b := by
  induction a with
  | nil => rfl
  | cons c cs ih => simp [replace1, ih]

theorem escList_cons (c : Char) (s : List Char) :
    escList (c :: s) = escChar c ++ escList s := by
  by_cases h1 : c = '\\'
  · subst h1; simp [escList, escChar, replace1, replace1_append]
  · by_cases h2 : c = '\t'
    · subst h2; simp [escList, escChar, replace1, replace1_append]
    · by_cases h3 : c = '\r'
      · subst h3; simp [escList, escChar, replace1, replace1_append]
      · by_cases h4 : c = '\n'
        · subst h4; simp [escList, escChar, replace1, replace1_append]
        · simp [escList, escChar, replace1, replace1_append, h1, h2, h3, h4]

theorem escList_eq_escMap (s : List Char) : escList s = escMap s := by
  induction s with
  | nil => rfl
  | cons c cs ih => simp [escList_cons, escMap, ih]

theorem _esc_data (s : String) : (_esc s).data = escMap s.data := by
  by_cases h : s = ""
  · subst h; rfl
  · simp [_esc, h, escList_eq_escMap]

theorem not_mem_escMap (s : List Char) (x : Char)
    (hx : x = '\t' ∨ x = '\r' ∨ x = '\n') : x ∉ escMap s := by
  induction s with
  | nil => simp [escMap]
  | cons c cs ih =>
    simp only [escMap, List.flatMap_cons, List.mem_append] at ih ⊢
    rintro (h | h)
    · revert h
      unfold escChar
      split_ifs <;> rcases hx with hx | hx | hx <;> subst hx <;> simp_all [eq_comm]
    · exact ih h

theorem unescList_cons_ne (c : Char) (l : List Char) (h : ¬ c = '\\') :
    unescList (c :: l) = c :: unescList l := by
  cases l with
  | nil => rfl
  | cons d rest => simp [unescList, h]

theorem unescList_escMap (s : List Char) : unescList (escMap s) = s := by
  induction s with
  | nil => rfl
  | cons c cs ih =>
    have hmap : escMap (c :: cs) = escChar c ++ escMap cs := by
      simp [escMap]
    rw [hmap]
    by_cases h1 : c = '\\'
    · subst h1; simp [escChar, unescList, unescChar, ih]
    · by_cases h2 : c = '\t'
      · subst h2; simp [escChar, unescList, unescChar, ih]
      · by_cases h3 : c = '\r'
        · subst h3; simp [escChar, unescList, unescChar, ih]
        · by_cases h4 : c = '\n'
          · subst h4; simp [escChar, unescList, unescChar, ih]
          · simp only [escChar, h1, h2, h3, h4, if_false, List.singleton_append]
            rw [unescList_cons_ne c _ h1, ih]

theorem string_data_inj {a b : String} (h : a.data = b.data) : a = b := by
  cases a; cases b; cases h; rfl

theorem unesc_esc (s : String) : _unesc (_esc s) = s := by
  apply string_data_inj
  simp [_unesc, _esc_data, unescList_escMap]

theorem esc_inj {a b : String} (h : _esc a = _esc b) : a = b := by
  have h2 := congrArg _unesc h
  rwa [unesc_esc, unesc_esc] at h2
/-! ### Helper lemmas: text lines and headers -/

theorem pyJoin_cons_append (sep x : String) (rest : List String) :
    ∃ t : String, pyJoin sep (x :: rest) = x ++ t := by
  cases rest with
  | nil => exact ⟨"", by simp [pyJoin]⟩
  | cons y ys => exact ⟨sep ++ pyJoin sep (y :: ys), by simp [pyJoin, String.append_assoc]⟩

theorem header_eq_iff {a b : String} : ">" ++ _esc a = ">" ++ _esc b ↔ a = b := by
  constructor
  · intro h
    apply esc_inj
    apply string_data_inj
    have h2 := congrArg String.data h
    rw [String.data_append, String.data_append] at h2
    simpa using h2
  · intro h; rw [h]

theorem header_ne_cellLine (name : String) (parts : List String) :
    ">" ++ _esc name ≠ pyJoin "\t" ("c" :: parts) := by
  obtain ⟨t, ht⟩ := pyJoin_cons_append "\t" "c" parts
  rw [ht]
  intro h
  have h2 := congrArg String.data h
  rw [String.data_append, String.data_append] at h2
  simp at h2

/-! ### Helper lemmas: association lists and dictionary folds -/

theorem alookup_dictInsert_self {α : Type} (k : String) (v : α) (l : List (String × α)) :
    alookup k (dictInsert k v l) = some v := by
  induction l with
  | nil => simp [dictInsert, alookup]
  | cons p rest ih =>
    obtain ⟨k', v'⟩ := p
    by_cases h : k' = k <;> simp [dictInsert, alookup, h, ih]

theorem alookup_dictInsert_ne {α : Type} (k k' : String) (v : α) (l : List (String × α))
    (h : ¬ k' = k) : alookup k (dictInsert k' v l) = alookup k l := by
  induction l with
  | nil => simp [dictInsert, alookup, h]
  | cons p rest ih =>
    obtain ⟨a, b⟩ := p
    by_cases ha : a = k'
    · subst ha; simp [dictInsert, alookup, h, ih]
    · by_cases hak : a = k <;> simp [dictInsert, alookup, Ne.symm h, ha, hak, ih]

theorem alookup_eq_none_iff {α : Type} (k : String) (l : List (String × α)) :
    alookup k l = Option.none ↔ k ∉ l.map Prod.fst := by
  induction l with
  | nil => simp [alookup]
  | cons p rest ih =>
    obtain ⟨a, b⟩ := p
    by_cases h : a = k
    · subst h; simp [alookup]
    · simp [alookup, h, ih, Ne.symm h]

theorem mem_keys_dictInsert {α : Type} (k n : String) (v : α) (l : List (String × α)) :
    n ∈ (dictInsert k v l).map Prod.fst ↔ n = k ∨ n ∈ l.map Prod.fst := by
  induction l with
  | nil => simp [dictInsert]
  | cons p rest ih =>
    obtain ⟨a, b⟩ := p
    by_cases h : a = k
    · subst h; by_cases hn : n = a <;> simp [dictInsert, hn, ih]
    · simp [dictInsert, h, ih]
      tauto

theorem dictInsert_eq_append {α : Type} (k : String) (v : α) (l : List (String × α))
    (h : k ∉ l.map Prod.fst) : dictInsert k v l = l ++ [(k, v)] := by
  induction l with
  | nil => rfl
  | cons p rest ih =>
    obtain ⟨a, b⟩ := p
    simp only [List.map_cons, List.mem_cons] at h
    push_neg at h
    simp [dictInsert, Ne.symm h.1, ih h.2]

theorem keys_nodup_dictInsert {α : Type} (k : String) (v : α) (l : List (String × α))
    (h : (l.map Prod.fst).Nodup) : ((dictInsert k v l).map Prod.fst).Nodup := by
  by_cases hk : k ∈ l.map Prod.fst
  · have : (dictInsert k v l).map Prod.fst = l.map Prod.fst := by
      induction l with
      | nil => simp at hk
      | cons p rest ih =>
        obtain ⟨a, b⟩ := p
        by_cases ha : a = k
        · simp [dictInsert, ha]
        · have hk' : k ∈ rest.map Prod.fst := by
            simpa [Ne.symm ha] using hk
          simp only [List.map_cons, List.nodup_cons] at h
          simp [dictInsert, ha, ih h.2 hk']
    rw [this]; exact h
  · rw [dictInsert_eq_append k v l hk]
    simp only [List.map_append, List.map_cons, List.map_nil]
    exact List.Nodup.append h (List.nodup_singleton k) (by
      intro x hx hx2
      simp only [List.mem_singleton] at hx2
      subst hx2
      exact hk hx)
/-- Behaviour of `alookup` after a fold of insert-if-present steps:
`F` is the per-name data and `G` the stored projection. -/
theorem alookup_foldl_ins {α β : Type} (F : String → Option α) (G : String → α → β)
    (step : List (String × β) → String → List (String × β))
    (hstep : ∀ res name, step res name =
      match F name with
      | some x => dictInsert name (G name x) res
      | Option.none => res) :
    ∀ (ns : List String) (acc : List (String × β)) (n : String),
      alookup n (ns.foldl step acc) =
        match F n with
        | some x => if n ∈ ns then some (G n x) else alookup n acc
        | Option.none => alookup n acc := by
  intro ns
  induction ns with
  | nil =>
    intro acc n
    cases F n <;> simp
  | cons m ms ih =>
    intro acc n
    rw [List.foldl_cons, ih, hstep acc m]
    by_cases hnm : n = m
    · subst hnm
      cases hF : F n with
      | none => simp [hF]
      | some x =>
        by_cases hmem : n ∈ ms <;> simp [hF, hmem, alookup_dictInsert_self]
    · cases hF : F n with
      | none =>
        cases hFm : F m with
        | none => simp [hF]
        | some y => simp [hF, alookup_dictInsert_ne n m (G m y) acc (Ne.symm hnm)]
      | some x =>
        cases hFm : F m with
        | none => simp [hF, hnm]
        | some y => simp [hF, hnm, alookup_dictInsert_ne n m (G m y) acc (Ne.symm hnm)]

/-- Keys produced by a fold of insert-if-present steps, for a
duplicate-free name list disjoint from the accumulator. -/
theorem keys_foldl_ins {α β : Type} (F : String → Option α) (G : String → α → β)
    (step : List (String × β) → String → List (String × β))
    (hstep : ∀ res name, step res name =
      match F name with
      | some x => dictInsert name (G name x) res
      | Option.none => res) :
    ∀ (ns : List String) (acc : List (String × β)),
      ns.Nodup → (∀ n ∈ ns, n ∉ acc.map Prod.fst) →
      (ns.foldl step acc).map Prod.fst
        = acc.map Prod.fst ++ ns.filter (fun n => (F n).isSome) := by
  intro ns
  induction ns with
  | nil => intro acc _ _; simp
  | cons m ms ih =>
    intro acc hnd hdisj
    rw [List.foldl_cons, hstep acc m]
    rcases List.nodup_cons.mp hnd with ⟨hm, hnd2⟩
    cases hFm : F m with
    | none =>
      rw [ih acc hnd2 (fun n hn => hdisj n (List.mem_cons_of_mem m hn))]
      simp [List.filter_cons, hFm]
    | some y =>
      have hmacc : m ∉ acc.map Prod.fst := hdisj m (List.mem_cons_self m ms)
      have hdisj2 : ∀ n ∈ ms, n ∉ (dictInsert m (G m y) acc).map Prod.fst := by
        intro n hn
        rw [mem_keys_dictInsert]
        push_neg
        exact ⟨fun hnm => hm (hnm ▸ hn), hdisj n (List.mem_cons_of_mem m hn)⟩
      rw [ih (dictInsert m (G m y) acc) hnd2 hdisj2,
        dictInsert_eq_append m (G m y) acc hmacc]
      simp [List.filter_cons, hFm]

/-- Key membership after a fold of insert-if-present steps. -/
theorem mem_keys_foldl_ins {α β : Type} (F : String → Option α) (G : String → α → β)
    (step : List (String × β) → String → List (String × β))
    (hstep : ∀ res name, step res name =
      match F name with
      | some x => dictInsert name (G name x) res
      | Option.none => res) :
    ∀ (ns : List String) (acc : List (String × β)) (n : String),
      n ∈ (ns.foldl step acc).map Prod.fst
        ↔ (n ∈ ns ∧ (F n).isSome = true) ∨ n ∈ acc.map Prod.fst := by
  intro ns
  induction ns with
  | nil => intro acc n; simp
  | cons m ms ih =>
    intro acc n
    rw [List.foldl_cons, ih, hstep acc m]
    by_cases hnm : n = m
    · subst hnm
      cases hFm : F n with
      | none => simp [hFm]
      | some y => rw [mem_keys_dictInsert]; simp [hFm]
    · cases hFm : F m with
      | none => simp [hnm]
      | some y => rw [mem_keys_dictInsert]; simp [hnm]

/-- Key distinctness is preserved by a fold of insert-if-present steps. -/
theorem keys_nodup_foldl_ins {α β : Type} (F : String → Option α) (G : String → α → β)
    (step : List (String × β) → String → List (String × β))
    (hstep : ∀ res name, step res name =
      match F name with
      | some x => dictInsert name (G name x) res
      | Option.none => res) :
    ∀ (ns : List String) (acc : List (String × β)),
      (acc.map Prod.fst).Nodup → ((ns.foldl step acc).map Prod.fst).Nodup := by
  intro ns
  induction ns with
  | nil => intro acc h; simpa using h
  | cons m ms ih =>
    intro acc h
    rw [List.foldl_cons, hstep acc m]
    cases hFm : F m with
    | none => exact ih acc h
    | some y => exact ih _ (keys_nodup_dictInsert m (G m y) acc h)

/-- `cells_by_sheet` looked up at a name. -/
theorem alookup_cells_by_sheet (wb : Workbook) (names : List String) (rs re cs ce : Int)
    (sp : Bool) (n : String) :
    alookup n (cells_by_sheet wb names rs re cs ce sp)
      = if n ∈ names then sheetCells wb rs re cs ce sp n else Option.none := by
  have h := alookup_foldl_ins (sheetCells wb rs re cs ce sp) (fun _ x => x)
    (fun acc name => match sheetCells wb rs re cs ce sp name with
      | Option.none => acc
      | some cs => dictInsert name cs acc)
    (by
      intro res name
      cases h : sheetCells wb rs re cs ce sp name <;> simp [h])
    names [] n
  unfold cells_by_sheet
  rw [h]
  cases hF : sheetCells wb rs re cs ce sp n with
  | none => simp [alookup]
  | some x => by_cases hmem : n ∈ names <;> simp [hmem, alookup]
/-- `json_doc` looked up at a name. -/
theorem alookup_json_doc (wb : Workbook) (names : List String) (fields : Fields)
    (rs re cs ce : Int) (sp : Bool) (n : String) :
    alookup n (json_doc wb names fields rs re cs ce sp)
      = if n ∈ names
          then (sheetCells wb rs re cs ce sp n).map
                 (fun cs => cs.map (fun c => _cell_to_json c fields))
          else Option.none := by
  have h := alookup_foldl_ins
    (fun name => alookup name (cells_by_sheet wb names rs re cs ce sp))
    (fun _ cs => cs.map (fun c => _cell_to_json c fields))
    (fun res name => match alookup name (cells_by_sheet wb names rs re cs ce sp) with
      | some cs => dictInsert name (cs.map (fun c => _cell_to_json c fields)) res
      | Option.none => res)
    (by
      intro res name
      cases h : alookup name (cells_by_sheet wb names rs re cs ce sp) <;> simp [h])
    names [] n
  unfold json_doc
  rw [h, alookup_cells_by_sheet]
  by_cases hmem : n ∈ names
  · simp only [hmem, if_true]
    cases hF : sheetCells wb rs re cs ce sp n <;> simp [alookup]
  · simp [hmem, alookup]

/-- Keys of `json_doc`, for a duplicate-free request list: the
requested names that produced data, in requested order. -/
theorem keys_json_doc (wb : Workbook) (names : List String) (fields : Fields)
    (rs re cs ce : Int) (sp : Bool) (hnd : names.Nodup) :
    (json_doc wb names fields rs re cs ce sp).map Prod.fst
      = names.filter (fun n => (sheetCells wb rs re cs ce sp n).isSome) := by
  have h := keys_foldl_ins
    (fun name => alookup name (cells_by_sheet wb names rs re cs ce sp))
    (fun _ cs => cs.map (fun c => _cell_to_json c fields))
    (fun res name => match alookup name (cells_by_sheet wb names rs re cs ce sp) with
      | some cs => dictInsert name (cs.map (fun c => _cell_to_json c fields)) res
      | Option.none => res)
    (by
      intro res name
      cases h : alookup name (cells_by_sheet wb names rs re cs ce sp) <;> simp [h])
    names [] hnd (by simp)
  unfold json_doc
  rw [h]
  simp only [List.map_nil, List.nil_append]
  apply List.filter_congr
  intro n hn
  rw [alookup_cells_by_sheet]
  simp [hn]

/-- Key membership in `json_doc`. -/
theorem mem_keys_json_doc (wb : Workbook) (names : List String) (fields : Fields)
    (rs re cs ce : Int) (sp : Bool) (n : String) :
    n ∈ (json_doc wb names fields rs re cs ce sp).map Prod.fst
      ↔ n ∈ names ∧ (sheetCells wb rs re cs ce sp n).isSome = true := by
  have h := mem_keys_foldl_ins
    (fun name => alookup name (cells_by_sheet wb names rs re cs ce sp))
    (fun _ cs => cs.map (fun c => _cell_to_json c fields))
    (fun res name => match alookup name (cells_by_sheet wb names rs re cs ce sp) with
      | some cs => dictInsert name (cs.map (fun c => _cell_to_json c fields)) res
      | Option.none => res)
    (by
      intro res name
      cases h : alookup name (cells_by_sheet wb names rs re cs ce sp) <;> simp [h])
    names [] n
  unfold json_doc
  rw [h, alookup_cells_by_sheet]
  by_cases hmem : n ∈ names <;> simp [hmem]

/-- Keys of `json_doc` are distinct (it is a Python dict). -/
theorem keys_nodup_json_doc (wb : Workbook) (names : List String) (fields : Fields)
    (rs re cs ce : Int) (sp : Bool) :
    ((json_doc wb names fields rs re cs ce sp).map Prod.fst).Nodup := by
  have h := keys_nodup_foldl_ins
    (fun name => alookup name (cells_by_sheet wb names rs re cs ce sp))
    (fun _ cs => cs.map (fun c => _cell_to_json c fields))
    (fun res name => match alookup name (cells_by_sheet wb names rs re cs ce sp) with
      | some cs => dictInsert name (cs.map (fun c => _cell_to_json c fields)) res
      | Option.none => res)
    (by
      intro res name
      cases h : alookup name (cells_by_sheet wb names rs re cs ce sp) <;> simp [h])
    names [] (by simp)
  unfold json_doc
  exact h

/-- `text_lines`, written as a concatenation of per-name blocks. -/
theorem text_lines_eq (wb : Workbook) (names : List String) (fields : Fields)
    (rs re cs ce : Int) (sp : Bool) :
    text_lines wb names fields rs re cs ce sp
      = names.flatMap fun n =>
          match alookup n (cells_by_sheet wb names rs re cs ce sp) with
          | Option.none => []
          | some cs =>
            (">" ++ _esc n) :: cs.map (fun c => pyJoin "\t" (_cell_to_text_parts c fields)) := rfl

/-- Occurrences of a sheet header among per-name blocks: one per
occurrence of the name among the names that produced data. -/
theorem count_header_blocks (cbs : List (String × List _CellData)) (fields : Fields)
    (ns : List String) (name : String) :
    ((ns.flatMap fun n =>
        match alookup n cbs with
        | Option.none => []
        | some cs =>
          (">" ++ _esc n) :: cs.map (fun c => pyJoin "\t" (_cell_to_text_parts c fields))).count
      (">" ++ _esc name))
      = (ns.filter (fun n => (alookup n cbs).isSome)).count name := by
  induction ns with
  | nil => rfl
  | cons m ms ih =>
    rw [List.flatMap_cons, List.count_append, ih, List.filter_cons]
    cases hm : alookup m cbs with
    | none => simp
    | some cs =>
      have hcells :
          ((cs.map fun c => pyJoin "\t" (_cell_to_text_parts c fields)).count
            (">" ++ _esc name)) = 0 := by
        rw [List.count_eq_zero]
        intro hmem
        rcases List.mem_map.mp hmem with ⟨c, _, hc⟩
        have hshape : ∃ rest, _cell_to_text_parts c fields = "c" :: rest := ⟨_, rfl⟩
        rcases hshape with ⟨rest, hrest⟩
        rw [hrest] at hc
        exact header_ne_cellLine name rest hc.symm
      have hiff : (">" ++ _esc name = ">" ++ _esc m) ↔ name = m := header_eq_iff
      by_cases hnm : name = m
      · subst hnm
        simp only [List.count_cons, hcells]
        simp [Nat.add_comm]
      · have hne : ¬ (">" ++ _esc m = ">" ++ _esc name) := fun h => hnm (hiff.mp h.symm)
        simp [List.count_cons, hcells, hnm, hne]

/-- Header occurrences in `text_lines`, in terms of the per-sheet
outcome. -/
theorem count_header_text_lines (wb : Workbook) (names : List String) (fields : Fields)
    (rs re cs ce : Int) (sp : Bool) (name : String) :
    (text_lines wb names fields rs re cs ce sp).count (">" ++ _esc name)
      = (names.filter (fun n => (sheetCells wb rs re cs ce sp n).isSome)).count name := by
  rw [text_lines_eq, count_header_blocks]
  congr 1
  apply List.filter_congr
  intro n hn
  rw [alookup_cells_by_sheet]
  simp [hn]

theorem mkCellData_row (row col : Int) (cell : Cell) : (mkCellData row col cell).row = row := rfl

theorem mkCellData_col (row col : Int) (cell : Cell) : (mkCellData row col cell).col = col := rfl

theorem collect_coords (ws : Sheet) (r1 r2 c1 c2 : Int) (sparse : Bool) :
    ((_collect_cells ws r1 r2 c1 c2 sparse).map fun cd => (cd.row, cd.col))
      = (rowMajorCoords r1 r2 c1 c2).filter
          (fun rc => !(sparse && _is_blank (ws.cell rc.1 rc.2).value)) := by
  simp only [_collect_cells, rowMajorCoords]
  generalize intRange r1 r2 = rows
  induction rows with
  | nil => rfl
  | cons r rows ihr =>
    rw [List.flatMap_cons, List.flatMap_cons, List.map_append, List.filter_append, ihr]
    congr 1
    generalize intRange c1 c2 = cols
    induction cols with
    | nil => rfl
    | cons c cols ihc =>
      rw [List.flatMap_cons, List.map_append, List.map_cons, List.filter_cons]
      cases hb : (sparse && _is_blank (ws.cell r c).value) <;>
        simp [hb, mkCellData_row, mkCellData_col] <;>
        simpa using ihc

theorem intRange_length (a b : Int) : (intRange a b).length = (b + 1 - a).toNat := by
  unfold intRange
  rw [List.length_map, List.length_range]

theorem collect_length_dense (ws : Sheet) (r1 r2 c1 c2 : Int)
    (h1 : r1 ≤ r2) (h2 : c1 ≤ c2) :
    ((_collect_cells ws r1 r2 c1 c2 false).length : Int)
      = (r2 - r1 + 1) * (c2 - c1 + 1) := by
  have hlen : (_collect_cells ws r1 r2 c1 c2 false).length
      = (intRange r1 r2).length * (intRange c1 c2).length := by
    simp only [_collect_cells]
    rw [List.length_flatMap]
    have hmap : ((intRange r1 r2).map (List.length ∘ fun row =>
        ((intRange c1 c2).flatMap fun col =>
          if false && _is_blank (ws.cell row col).value then []
          else [mkCellData row col (ws.cell row col)])))
        = (intRange r1 r2).map (fun _ => (intRange c1 c2).length) := by
      apply List.map_congr_left
      intro r _
      simp only [Function.comp_apply]
      rw [List.length_flatMap]
      have h2 : ((intRange c1 c2).map (List.length ∘ fun col =>
          if false && _is_blank (ws.cell r col).value then []
          else [mkCellData r col (ws.cell r col)]))
          = (intRange c1 c2).map (fun _ => 1) := by
        apply List.map_congr_left
        intro c _
        simp
      rw [h2, List.map_const', List.sum_replicate, smul_eq_mul, Nat.mul_one]
    rw [hmap, List.map_const', List.sum_replicate, smul_eq_mul]
  rw [hlen, intRange_length, intRange_length]
  push_cast [Int.toNat_of_nonneg (by omega : (0 : Int) ≤ r2 + 1 - r1),
    Int.toNat_of_nonneg (by omega : (0 : Int) ≤ c2 + 1 - c1)]
  ring
theorem cell_to_text_parts_eq (cell : _CellData) (fields : Fields) :
    _cell_to_text_parts cell fields
      = "c" :: toString cell.row :: toString cell.col
          :: (textKeys fields).map (_render_field cell) := by
  obtain ⟨v, b, n, z, c, g, f⟩ := fields
  cases v <;> cases b <;> cases n <;> cases z <;> cases c <;> cases g <;> cases f <;>
    simp [_cell_to_text_parts, textKeys, _render_field]

def blankCell : Cell := { value := RawVal.none, font := Option.none, fill := Option.none }

def wsEx : Sheet where
  cell := fun r c =>
    if r = 1 ∧ c = 1 then
      { value := RawVal.str "=SUM(A1:A2)"
        font := some { bold := true, name := some "Arial", size := some 11,
                       color := some { rgb := some "FF0000FF" } }
        fill := Option.none }
    else if r = 1 ∧ c = 2 then
      { value := RawVal.str "  ", font := Option.none, fill := Option.none }
    else if r = 2 ∧ c = 1 then
      { value := RawVal.int 0, font := Option.none, fill := Option.none }
    else blankCell
  min_row := some 1
  max_row := some 2
  min_column := some 1
  max_column := some 2

def wsBlank : Sheet where
  cell := fun _ _ => blankCell
  min_row := some 1
  max_row := some 1
  min_column := some 1
  max_column := some 1

def wsNoBounds : Sheet where
  cell := fun _ _ => blankCell
  min_row := some 2
  max_row := Option.none
  min_column := Option.none
  max_column := some 3

def wbEx : Workbook := { sheets := [("A", wsBlank)] }

def cdPlain : _CellData :=
  { row := 1, col := 1, value := "hi", is_formula := false, bold := false,
    font_name := some "", font_size := Option.none, font_color := "", fill_color := "" }

def cdFormula : _CellData :=
  { row := 1, col := 1, value := "=1+2", is_formula := true, bold := true,
    font_name := some "Arial", font_size := some 12, font_color := "", fill_color := "" }

def cdZero : _CellData :=
  { row := 1, col := 1, value := "x", is_formula := false, bold := false,
    font_name := some "", font_size := some 0, font_color := "", fill_color := "" }

/-! ### Claim C4: escaping -/

/-- C4: `_esc` returns the empty string unchanged, escapes every
character per the two-character table (backslash substitution first),
leaves no raw tab, carriage return or newline in its output, and is
reversed by the paired `_unesc` (hence injective). -/
theorem esc_spec :
    _esc "" = ""
    ∧ (∀ s : String, (_esc s).data = escMap s.data)
    ∧ (∀ s : String, '\t' ∉ (_esc s).data ∧ '\r' ∉ (_esc s).data ∧ '\n' ∉ (_esc s).data)
    ∧ (∀ s : String, _unesc (_esc s) = s)
    ∧ (∀ a b : String, _esc a = _esc b → a = b) := by
  refine ⟨rfl, _esc_data, ?_, unesc_esc, fun a b h => esc_inj h⟩
  intro s
  refine ⟨?_, ?_, ?_⟩ <;> rw [_esc_data]
  · exact not_mem_escMap s.data '\t' (Or.inl rfl)
  · exact not_mem_escMap s.data '\r' (Or.inr (Or.inl rfl))
  · exact not_mem_escMap s.data '\n' (Or.inr (Or.inr rfl))

/-- C4 witness: the round trip and the injectivity instance at a
concrete string containing all four special characters. -/
theorem esc_spec_witness :
    _unesc (_esc "a\\b\tc\rd\ne") = "a\\b\tc\rd\ne" ∧ ("x\ty" : String) = "x\ty" :=
  ⟨esc_spec.2.2.2.1 "a\\b\tc\rd\ne", esc_spec.2.2.2.2 "x\ty" "x\ty" rfl⟩

/-! ### Claim C6: range resolution -/

/-- C6: `_sheet_range` is total and resolves each of the four bounds to
the explicit override when positive, otherwise to the sheet's natural
bound, which defaults to 1 when the sheet reports none. -/
theorem sheet_range_spec (ws : Sheet) (rs re cs ce : Int) :
    (0 < rs → (_sheet_range ws rs re cs ce).1 = rs)
    ∧ (rs ≤ 0 → (_sheet_range ws rs re cs ce).1 = (pyOr1 ws.min_row : Nat))
    ∧ (0 < re → (_sheet_range ws rs re cs ce).2.1 = re)
    ∧ (re ≤ 0 → (_sheet_range ws rs re cs ce).2.1 = (pyOr1 ws.max_row : Nat))
    ∧ (0 < cs → (_sheet_range ws rs re cs ce).2.2.1 = cs)
    ∧ (cs ≤ 0 → (_sheet_range ws rs re cs ce).2.2.1 = (pyOr1 ws.min_column : Nat))
    ∧ (0 < ce → (_sheet_range ws rs re cs ce).2.2.2 = ce)
    ∧ (ce ≤ 0 → (_sheet_range ws rs re cs ce).2.2.2 = (pyOr1 ws.max_column : Nat))
    ∧ pyOr1 Option.none = 1 := by
  refine ⟨?_, ?_, ?_, ?_, ?_, ?_, ?_, ?_, rfl⟩ <;> intro h
  · simp [_sheet_range, h]
  · simp [_sheet_range, show ¬ (0 < rs) by omega]
  · simp [_sheet_range, h]
  · simp [_sheet_range, show ¬ (0 < re) by omega]
  · simp [_sheet_range, h]
  · simp [_sheet_range, show ¬ (0 < cs) by omega]
  · simp [_sheet_range, h]
  · simp [_sheet_range, show ¬ (0 < ce) by omega]

/-- C6 witness: a positive override wins, a non-positive override falls
back to the natural bound, and missing natural bounds default to 1. -/
theorem sheet_range_spec_witness :
    (_sheet_range wsNoBounds 5 0 (-1) 3).1 = 5
    ∧ (_sheet_range wsNoBounds 5 0 (-1) 3).2.1 = 1
    ∧ (_sheet_range wsNoBounds 5 0 (-1) 3).2.2.1 = 1
    ∧ (_sheet_range wsNoBounds 5 0 (-1) 3).2.2.2 = 3
    ∧ pyOr1 Option.none = 1 := by
  have h := sheet_range_spec wsNoBounds 5 0 (-1) 3
  refine ⟨h.1 (by decide), ?_, ?_, h.2.2.2.2.2.2.1 (by decide), h.2.2.2.2.2.2.2.2⟩
  · rw [h.2.2.2.1 (by decide)]; decide
  · rw [h.2.2.2.2.2.1 (by decide)]; decide

/-! ### Claim C8: the tool facade -/

/-- C8: the facade returns the exact error string (built from the given
argument) when the path does not exist, and the pipeline's output
verbatim when it does; being a total function, it raises no fault. -/
theorem facade_spec (pathExists : String → Bool) (pipeline : String → String)
    (pathStr : String → String) (filepath : String) :
    (pathExists (pathStr filepath) = false →
      server_read_excel pathExists pipeline pathStr filepath
        = "error: file not found: " ++ filepath)
    ∧ (pathExists (pathStr filepath) = true →
      server_read_excel pathExists pipeline pathStr filepath
        = pipeline (pathStr filepath)) := by
  constructor <;> intro h <;> simp [server_read_excel, h]

/-- C8 witness: both facade branches at concrete filesystems. -/
theorem facade_spec_witness :
    server_read_excel (fun _ => false) (fun s => s) (fun s => s) "missing.xlsx"
      = "error: file not found: missing.xlsx"
    ∧ server_read_excel (fun _ => true) (fun s => s ++ "!") (fun s => s) "here.xlsx"
      = "here.xlsx!" := by
  constructor
  · rw [(facade_spec (fun _ => false) (fun s => s) (fun s => s) "missing.xlsx").1 rfl]
    decide
  · rw [(facade_spec (fun _ => true) (fun s => s ++ "!") (fun s => s) "here.xlsx").2 rfl]
    decide

/-! ### Claim C1: format dispatch -/

/-- C1 counterexample: with `fmt = "x"` the first character is not
`"t"`, yet the result is the delimited-text encoding, not the
structured one. -/
theorem fmt_dispatch_counterexample :
    fmt_char_of "x" ≠ "t"
    ∧ (read_excel wbEx "vbf" "x" "" 0 0 0 0 true).isJson = false :=
  ⟨by decide, by decide⟩

/-- C1 (amended): the structured encoding is produced exactly when the
first character of `fmt`, lowercased and defaulting to `"j"` when `fmt`
is empty, is `"j"`; every other first character — not only `"t"` —
produces the delimited-text encoding. -/
theorem fmt_dispatch_spec (wb : Workbook) (out fmt sheets : String)
    (rs re cs ce : Int) (sparse : Bool) :
    (read_excel wb out fmt sheets rs re cs ce sparse).isJson
      = (fmt_char_of fmt == "j") := by
  unfold read_excel
  by_cases h : fmt_char_of fmt = "j" <;> simp [h, Output.isJson]

/-! ### Claim C3: field selection -/

/-- C3 counterexample: the empty `out` string does not produce minimal
row/col-only output; it falls back to the default `"vbf"` selection. -/
theorem out_empty_counterexample :
    (_cell_to_json cdPlain (_parse_out "")).map Prod.fst ≠ ["row", "col"]
    ∧ _parse_out "" = _parse_out "vbf" :=
  ⟨by decide, by decide⟩

/-- C3 (amended): for a nonempty `out` containing, case-insensitively,
none of the recognised letters, every emitted cell carries only row and
col in structured mode, and its text line is the bare `"c"`, row, col
tokens; the empty `out` instead selects the default `"vbf"`. -/
theorem out_unrecognized_spec (out : String) (cell : _CellData)
    (h0 : out ≠ "")
    (hv : pyContains (pyLower out) 'v' = false)
    (hb : pyContains (pyLower out) 'b' = false)
    (hn : pyContains (pyLower out) 'n' = false)
    (hz : pyContains (pyLower out) 'z' = false)
    (hc : pyContains (pyLower out) 'c' = false)
    (hg : pyContains (pyLower out) 'g' = false)
    (hf : pyContains (pyLower out) 'f' = false) :
    (_cell_to_json cell (_parse_out out)).map Prod.fst = ["row", "col"]
    ∧ _cell_to_text_parts cell (_parse_out out)
        = ["c", toString cell.row, toString cell.col] := by
  have hfld : _parse_out out =
      { v := false, b := false, n := false, z := false, c := false, g := false, f := false } := by
    unfold _parse_out
    simp [h0, hv, hb, hn, hz, hc, hg, hf]
  rw [hfld]
  constructor
  · simp [_cell_to_json]
  · simp [_cell_to_text_parts]

/-- C3 witness: `out = "XY"` (nonempty, unrecognised letters only)
at a concrete cell. -/
theorem out_unrecognized_spec_witness :
    ("XY" : String) ≠ ""
    ∧ ((_cell_to_json cdPlain (_parse_out "XY")).map Prod.fst = ["row", "col"]
      ∧ _cell_to_text_parts cdPlain (_parse_out "XY") = ["c", "1", "1"]) := by
  refine ⟨by decide, ?_⟩
  have h := out_unrecognized_spec "XY" cdPlain (by decide) (by decide) (by decide)
    (by decide) (by decide) (by decide) (by decide) (by decide)
  exact ⟨h.1, by rw [h.2]; decide⟩

/-! ### Claim C9: text tokens for booleans and font size -/

/-- C9 counterexample: a present font size of zero renders as the empty
token, not as its decimal string `"0"`. -/
theorem font_size_token_counterexample :
    cdZero.font_size = some 0
    ∧ _cell_to_text_parts cdZero (_parse_out "z") = ["c", "1", "1", ""]
    ∧ ("" : String) ≠ toString (0 : Nat) :=
  ⟨rfl, by decide, by decide⟩

set_option maxHeartbeats 1600000 in
/-- C9 (amended): in the delimited-text encoding the selected boolean
fields render as `"1"`/`"0"`; the font-size token is empty when the
size is absent or zero, and is the decimal string of the size when it
is a present nonzero value. -/
theorem text_tokens_spec (cell : _CellData) (fields : Fields) :
    (fields.f = true →
      (_cell_to_text_parts cell fields)[3 + (if fields.v then 1 else 0)]?
        = some (if cell.is_formula then "1" else "0"))
    ∧ (fields.b = true →
      (_cell_to_text_parts cell fields)[3 + (if fields.v then 1 else 0)
          + (if fields.f then 1 else 0)]?
        = some (if cell.bold then "1" else "0"))
    ∧ (fields.z = true →
      (cell.font_size = Option.none →
        (_cell_to_text_parts cell fields)[3 + (if fields.v then 1 else 0)
            + (if fields.f then 1 else 0) + (if fields.b then 1 else 0)
            + (if fields.n then 1 else 0)]? = some "")
      ∧ (cell.font_size = some 0 →
        (_cell_to_text_parts cell fields)[3 + (if fields.v then 1 else 0)
            + (if fields.f then 1 else 0) + (if fields.b then 1 else 0)
            + (if fields.n then 1 else 0)]? = some "")
      ∧ (∀ k : Nat, cell.font_size = some (k + 1) →
        (_cell_to_text_parts cell fields)[3 + (if fields.v then 1 else 0)
            + (if fields.f then 1 else 0) + (if fields.b then 1 else 0)
            + (if fields.n then 1 else 0)]? = some (toString (k + 1)))) := by
  obtain ⟨v, b, n, z, c, g, f⟩ := fields
  refine ⟨?_, ?_, ?_⟩
  · intro hf
    subst hf
    cases v <;> cases b <;> cases n <;> cases z <;> cases c <;> cases g <;> rfl
  · intro hb
    subst hb
    cases v <;> cases n <;> cases z <;> cases c <;> cases g <;> cases f <;> rfl
  · intro hz
    subst hz
    refine ⟨?_, ?_, ?_⟩
    · intro hfs
      cases v <;> cases b <;> cases n <;> cases c <;> cases g <;> cases f <;>
        simp only [_cell_to_text_parts, hfs] <;> rfl
    · intro hfs
      cases v <;> cases b <;> cases n <;> cases c <;> cases g <;> cases f <;>
        simp only [_cell_to_text_parts, hfs] <;> rfl
    · intro k hfs
      cases v <;> cases b <;> cases n <;> cases c <;> cases g <;> cases f <;>
        simp only [_cell_to_text_parts, hfs] <;> rfl

/-- C9 witness: formula and bold tokens and a present nonzero font size
at a concrete cell with `out = "fbz"`. -/
theorem text_tokens_spec_witness :
    (_cell_to_text_parts cdFormula (_parse_out "fbz"))[3]? = some "1"
    ∧ (_cell_to_text_parts cdFormula (_parse_out "fbz"))[4]? = some "1"
    ∧ (_cell_to_text_parts cdFormula (_parse_out "fbz"))[5]? = some (toString (11 + 1)) := by
  have h := text_tokens_spec cdFormula (_parse_out "fbz")
  exact ⟨h.1 (by decide), h.2.1 (by decide), (h.2.2 (by decide)).2.2 11 (by decide)⟩

/-! ### Claim C2: field-order consistency -/

/-- C2 counterexample: with only `f` selected and a non-formula cell,
the structured projection has no keys beyond row/col while the text
rendering appends one token, so the two sequences cannot correspond. -/
theorem field_order_counterexample :
    (((_cell_to_json cdPlain (_parse_out "f")).map Prod.fst).drop 2).length
      ≠ ((_cell_to_text_parts cdPlain (_parse_out "f")).length - 3) :=
  by decide

/-- C2 (amended): whenever `f` is unselected or the cell is a formula,
the key sequence of the structured projection after row/col equals the
canonical key order `textKeys`, and the text rendering consists of the
`"c"`, row, col tokens followed by exactly those keys' rendered values
in the same order. -/
theorem field_order_spec (cell : _CellData) (fields : Fields)
    (h : fields.f = false ∨ cell.is_formula = true) :
    ((_cell_to_json cell fields).map Prod.fst).drop 2 = textKeys fields
    ∧ _cell_to_text_parts cell fields
        = "c" :: toString cell.row :: toString cell.col
            :: (textKeys fields).map (_render_field cell) := by
  refine ⟨?_, cell_to_text_parts_eq cell fields⟩
  have hff : (fields.f && cell.is_formula) = fields.f := by
    rcases h with h | h <;> simp [h]
  obtain ⟨v, b, n, z, c, g, f⟩ := fields
  cases v <;> cases b <;> cases n <;> cases z <;> cases c <;> cases g <;> cases f <;>
    simp_all [_cell_to_json, textKeys]

/-- C2 witness: a formula cell with `out = "vf"`. -/
theorem field_order_spec_witness :
    ((_parse_out "vf").f = false ∨ cdFormula.is_formula = true)
    ∧ (((_cell_to_json cdFormula (_parse_out "vf")).map Prod.fst).drop 2
          = textKeys (_parse_out "vf")
      ∧ _cell_to_text_parts cdFormula (_parse_out "vf")
          = "c" :: toString cdFormula.row :: toString cdFormula.col
              :: (textKeys (_parse_out "vf")).map (_render_field cdFormula)) :=
  ⟨Or.inr (by decide), field_order_spec cdFormula (_parse_out "vf") (Or.inr (by decide))⟩

/-! ### Claim C5: extraction order and sparse filtering -/

/-- C5: extraction walks the resolved range in row-major order; dense
mode emits one cell per coordinate, `(r2-r1+1)*(c2-c1+1)` in all; and
sparse mode emits exactly the coordinates whose raw value is not blank
(`None` or a whitespace-only string), so present falsy values such as
the integer 0 or the boolean false are emitted. -/
theorem collect_cells_spec (ws : Sheet) (r1 r2 c1 c2 : Int) (sparse : Bool)
    (h1 : r1 ≤ r2) (h2 : c1 ≤ c2) :
    ((_collect_cells ws r1 r2 c1 c2 sparse).map fun cd => (cd.row, cd.col))
        = (rowMajorCoords r1 r2 c1 c2).filter
            (fun rc => !(sparse && _is_blank (ws.cell rc.1 rc.2).value))
    ∧ ((_collect_cells ws r1 r2 c1 c2 false).length : Int)
        = (r2 - r1 + 1) * (c2 - c1 + 1)
    ∧ _is_blank (RawVal.int 0) = false
    ∧ _is_blank (RawVal.bool false) = false :=
  ⟨collect_coords ws r1 r2 c1 c2 sparse,
    collect_length_dense ws r1 r2 c1 c2 h1 h2, rfl, rfl⟩

/-- C5 witness: the 2×2 fixture sheet in sparse mode. -/
theorem collect_cells_spec_witness :
    ((1 : Int) ≤ 2) ∧ ((1 : Int) ≤ 2)
    ∧ (((_collect_cells wsEx 1 2 1 2 true).map fun cd => (cd.row, cd.col))
          = (rowMajorCoords 1 2 1 2).filter
              (fun rc => !(true && _is_blank (wsEx.cell rc.1 rc.2).value))
        ∧ ((_collect_cells wsEx 1 2 1 2 false).length : Int) = (2 - 1 + 1) * (2 - 1 + 1)
        ∧ _is_blank (RawVal.int 0) = false
        ∧ _is_blank (RawVal.bool false) = false) :=
  ⟨by decide, by decide, collect_cells_spec wsEx 1 2 1 2 true (by decide) (by decide)⟩

/-! ### Claim C7: sheet presence in the outputs -/

/-- A name whose per-sheet outcome is `none` (missing from the workbook
or inverted range) is entirely absent from both encodings. -/
theorem absent_of_sheetCells_none (wb : Workbook) (names : List String) (fields : Fields)
    (rs re cs ce : Int) (sp : Bool) (name : String)
    (h : sheetCells wb rs re cs ce sp name = Option.none) :
    name ∉ (json_doc wb names fields rs re cs ce sp).map Prod.fst
    ∧ (text_lines wb names fields rs re cs ce sp).count (">" ++ _esc name) = 0 := by
  constructor
  · rw [mem_keys_json_doc]
    rintro ⟨-, hs⟩
    rw [h] at hs
    simp at hs
  · rw [count_header_text_lines, List.count_eq_zero]
    intro hmem
    have h2 := (List.mem_filter.mp hmem).2
    rw [h] at h2
    simp at h2

/-- C7: a requested name missing from the workbook, or one whose
resolved range is inverted, is entirely absent from both encodings; a
present sheet with a valid range whose cells were all filtered away
appears with an empty cell list (structured) and a bare header line
(text); and for a duplicate-free request the structured document lists
exactly the names that produced data, in requested order. -/
theorem sheet_presence_spec (wb : Workbook) (names : List String) (fields : Fields)
    (rs re cs ce : Int) (sp : Bool) (name : String) :
    (name ∉ wb.sheetnames →
        name ∉ (json_doc wb names fields rs re cs ce sp).map Prod.fst
        ∧ (text_lines wb names fields rs re cs ce sp).count (">" ++ _esc name) = 0)
    ∧ (∀ (ws : Sheet) (r1 r2 c1 c2 : Int), wb.get name = some ws →
        _sheet_range ws rs re cs ce = (r1, r2, c1, c2) → (r2 < r1 ∨ c2 < c1) →
        name ∉ (json_doc wb names fields rs re cs ce sp).map Prod.fst
        ∧ (text_lines wb names fields rs re cs ce sp).count (">" ++ _esc name) = 0)
    ∧ (∀ (ws : Sheet) (r1 r2 c1 c2 : Int), wb.get name = some ws → name ∈ names →
        _sheet_range ws rs re cs ce = (r1, r2, c1, c2) → ¬(r2 < r1 ∨ c2 < c1) →
        _collect_cells ws r1 r2 c1 c2 sp = [] →
        alookup name (json_doc wb names fields rs re cs ce sp) = some []
        ∧ (">" ++ _esc name) ∈ text_lines wb names fields rs re cs ce sp)
    ∧ (names.Nodup →
        (json_doc wb names fields rs re cs ce sp).map Prod.fst
          = names.filter (fun n => (sheetCells wb rs re cs ce sp n).isSome)) := by
  refine ⟨?_, ?_, ?_, keys_json_doc wb names fields rs re cs ce sp⟩
  · intro hnot
    have hget : wb.get name = Option.none := by
      unfold Workbook.get
      exact (alookup_eq_none_iff name wb.sheets).mpr
        (by simpa [Workbook.sheetnames] using hnot)
    exact absent_of_sheetCells_none wb names fields rs re cs ce sp name
      (by simp [sheetCells, hget])
  · intro ws r1 r2 c1 c2 hget hrange hinv
    exact absent_of_sheetCells_none wb names fields rs re cs ce sp name
      (by simp [sheetCells, hget, hrange, hinv])
  · intro ws r1 r2 c1 c2 hget hmem hrange hval hempty
    have hsc : sheetCells wb rs re cs ce sp name = some [] := by
      simp [sheetCells, hget, hrange, hval, hempty]
    constructor
    · rw [alookup_json_doc]
      simp [hmem, hsc]
    · rw [text_lines_eq]
      apply List.mem_flatMap.mpr
      refine ⟨name, hmem, ?_⟩
      rw [alookup_cells_by_sheet]
      simp [hmem, hsc]

/-- C7 witness: a one-sheet workbook, exercising the missing name, the
inverted range, the sparse-emptied sheet and the ordered key list. -/
theorem sheet_presence_spec_witness :
    ("Ghost" ∉ (json_doc wbEx ["A", "Ghost"] (_parse_out "v") 0 0 0 0 true).map Prod.fst)
    ∧ (text_lines wbEx ["A", "Ghost"] (_parse_out "v") 0 0 0 0 true).count (">" ++ _esc "Ghost") = 0
    ∧ ("A" ∉ (json_doc wbEx ["A"] (_parse_out "v") 2 1 0 0 true).map Prod.fst)
    ∧ alookup "A" (json_doc wbEx ["A", "Ghost"] (_parse_out "v") 0 0 0 0 true) = some []
    ∧ ((">" ++ _esc "A") ∈ text_lines wbEx ["A", "Ghost"] (_parse_out "v") 0 0 0 0 true)
    ∧ (json_doc wbEx ["A", "Ghost"] (_parse_out "v") 0 0 0 0 true).map Prod.fst
        = ["A", "Ghost"].filter (fun n => (sheetCells wbEx 0 0 0 0 true n).isSome) := by
  have h1 := (sheet_presence_spec wbEx ["A", "Ghost"] (_parse_out "v") 0 0 0 0 true "Ghost").1
    (by decide)
  have h2 := (sheet_presence_spec wbEx ["A"] (_parse_out "v") 2 1 0 0 true "A").2.1
    wsBlank 2 1 1 1 rfl (by decide) (Or.inl (by decide))
  have h3 := (sheet_presence_spec wbEx ["A", "Ghost"] (_parse_out "v") 0 0 0 0 true "A").2.2.1
    wsBlank 1 1 1 1 rfl (by decide) (by decide) (by decide) (by decide)
  have h4 := (sheet_presence_spec wbEx ["A", "Ghost"] (_parse_out "v") 0 0 0 0 true "A").2.2.2
    (by decide)
  exact ⟨h1.1, h1.2, h2.1, h3.1, h3.2, h4⟩

/-! ### Claim C10: duplicate requested names -/

/-- The per-name block of the text encoding: nothing when the name
produced no data, else the header line followed by one line per
collected cell. -/
def sheet_block (cbs : List (String × List _CellData)) (fields : Fields)
    (n : String) : List String :=
  match alookup n cbs with
  | Option.none => []
  | some cls =>
    (">" ++ _esc n) :: cls.map (fun c => pyJoin "\t" (_cell_to_text_parts c fields))

/-- A one-sheet workbook over the rich 2×2 fixture sheet. -/
def wbEx2 : Workbook := { sheets := [("S", wsEx)] }

/-- C10 counterexample: a duplicated existing name whose resolved range
is inverted yields no structured entry at all (not exactly one) and no
text header. -/
theorem duplicate_sheets_counterexample :
    "A" ∈ wbEx.sheetnames
    ∧ _sheet_names_of wbEx "A,A" = ["A", "A"]
    ∧ read_excel wbEx "v" "j" "A,A" 2 1 0 0 true = Output.json []
    ∧ ((json_doc wbEx (_sheet_names_of wbEx "A,A") (_parse_out "v") 2 1 0 0 true).map
        Prod.fst).count "A" = 0
    ∧ (text_lines wbEx (_sheet_names_of wbEx "A,A") (_parse_out "v") 2 1 0 0 true).count
        (">" ++ _esc "A") = 0 :=
  ⟨by decide, by decide, by decide, by decide, by decide⟩

/-- C10 (amended): when the requested list names the same sheet more
than once and that sheet produces data, the structured document holds
exactly one entry for it, while the text encoding is the concatenation
of one block per requested name, in which every occurrence of the name
contributes the sheet's full block — its header line followed by one
line per collected cell — so the header line and the full cell-line
block repeat once per occurrence. -/
theorem duplicate_sheets_spec (wb : Workbook) (fields : Fields) (sheets : String)
    (rs re cs ce : Int) (sp : Bool) (name : String)
    (hdup : 2 ≤ (_sheet_names_of wb sheets).count name)
    (hsome : (sheetCells wb rs re cs ce sp name).isSome = true) :
    ((json_doc wb (_sheet_names_of wb sheets) fields rs re cs ce sp).map Prod.fst).count name = 1
    ∧ text_lines wb (_sheet_names_of wb sheets) fields rs re cs ce sp
        = (_sheet_names_of wb sheets).flatMap
            (sheet_block (cells_by_sheet wb (_sheet_names_of wb sheets) rs re cs ce sp) fields)
    ∧ (∀ cls : List _CellData, sheetCells wb rs re cs ce sp name = some cls →
        sheet_block (cells_by_sheet wb (_sheet_names_of wb sheets) rs re cs ce sp) fields name
          = (">" ++ _esc name)
              :: cls.map (fun c => pyJoin "\t" (_cell_to_text_parts c fields)))
    ∧ (text_lines wb (_sheet_names_of wb sheets) fields rs re cs ce sp).count
        (">" ++ _esc name) = (_sheet_names_of wb sheets).count name := by
  have hmem : name ∈ _sheet_names_of wb sheets := List.count_pos_iff.mp (by omega)
  refine ⟨?_, rfl, ?_, ?_⟩
  · have hk : name ∈ (json_doc wb (_sheet_names_of wb sheets) fields rs re cs ce sp).map
        Prod.fst :=
      (mem_keys_json_doc wb (_sheet_names_of wb sheets) fields rs re cs ce sp name).mpr
        ⟨hmem, hsome⟩
    exact List.count_eq_one_of_mem
      (keys_nodup_json_doc wb (_sheet_names_of wb sheets) fields rs re cs ce sp) hk
  · intro cls hcls
    unfold sheet_block
    rw [alookup_cells_by_sheet]
    simp [hmem, hcls]
  · rw [count_header_text_lines]
    exact List.count_filter hsome

/-- C10 witness: a sheet with two collected cells requested twice with
a valid range: one structured entry, and the text output is block ++
block where the block is the header followed by both cell lines. -/
theorem duplicate_sheets_spec_witness :
    2 ≤ (_sheet_names_of wbEx2 "S,S").count "S"
    ∧ (sheetCells wbEx2 0 0 0 0 true "S").isSome = true
    ∧ ((json_doc wbEx2 (_sheet_names_of wbEx2 "S,S") (_parse_out "v") 0 0 0 0 true).map
          Prod.fst).count "S" = 1
    ∧ text_lines wbEx2 (_sheet_names_of wbEx2 "S,S") (_parse_out "v") 0 0 0 0 true
        = (_sheet_names_of wbEx2 "S,S").flatMap
            (sheet_block (cells_by_sheet wbEx2 (_sheet_names_of wbEx2 "S,S") 0 0 0 0 true)
              (_parse_out "v"))
    ∧ sheet_block (cells_by_sheet wbEx2 (_sheet_names_of wbEx2 "S,S") 0 0 0 0 true)
          (_parse_out "v") "S"
        = (">" ++ _esc "S")
            :: (_collect_cells wsEx 1 2 1 2 true).map
                (fun c => pyJoin "\t" (_cell_to_text_parts c (_parse_out "v")))
    ∧ (text_lines wbEx2 (_sheet_names_of wbEx2 "S,S") (_parse_out "v") 0 0 0 0 true).count
        (">" ++ _esc "S") = (_sheet_names_of wbEx2 "S,S").count "S" := by
  have h := duplicate_sheets_spec wbEx2 (_parse_out "v") "S,S" 0 0 0 0 true "S"
    (by decide) (by decide)
  exact ⟨by decide, by decide, h.1, h.2.1,
    h.2.2.1 (_collect_cells wsEx 1 2 1 2 true) (by decide), h.2.2.2⟩

end SnailMcp

